import Mathlib

/-!
EMUPJ: memory bus, ROM loader and fetch loop

A shallow embedding of `src/EMUPJ.cpp`.

* `uint32_t` values are natural numbers; every 32-bit addition of the source
  is followed by an explicit `% 2 ^ 32`.
* The global `memory` buffer is a list of bytes inside `Machine`; an index
  expression `memory[i]` whose `i` is not inside the buffer is undefined
  behaviour in C and is a `Fault.outOfBounds i` here.
* `MEMORY_SIZE` is defined in the part of the file that is not available, so
  every function takes it as its first argument. The source prints it with
  `%d`, so it is an `int` constant; the theorems that need a bound on it ask
  only for `MEMORY_SIZE ≤ 2 ^ 32`.
* Every buffer access and every line written to `stderr`/`stdout` is
  appended to `Machine.trace`.
-/

deriving instance DecidableEq for Except

namespace EMUPJ

/-- Events appended to the trace of a run, in program order. -/
inductive Event where
  /-- A read of `memory[index]`. -/
  | load (index : Nat)
  /-- A write of `memory[index]`. -/
  | store (index : Nat)
  /-- The line `Memory write out of bounds: 0x%08X` on stderr. -/
  | errWriteBounds (address : Nat)
  /-- The line `Memory read out of bounds: 0x%08X` on stderr. -/
  | errReadBounds (address : Nat)
  /-- The `perror` line printed when `fopen` fails. -/
  | errOpen
  /-- The line `ROM size (%ld bytes) exceeds memory size (%d bytes).` -/
  | errRomSize (rom_size : Nat) (memory_size : Nat)
  /-- The line `Failed to read the complete ROM file.` -/
  | errShortRead
  /-- The line `ROM loaded successfully. Size: %ld bytes.` on stdout. -/
  | outRomLoaded (rom_size : Nat)
  /-- The line `PC: 0x%08X | Instruction: 0x%08X` on stdout. -/
  | outFetch (pc : Nat) (instr : Nat)
  /-- Ghost event: one call of `gpu_step` (which prints nothing). -/
  | gpuTick
  deriving DecidableEq, Repr

/-- Ways a run can leave the defined behaviour of the program. -/
inductive Fault where
  /-- The buffer was indexed at `index`, which is not inside it. -/
  | outOfBounds (index : Nat)
  /-- The loop model ran out of fuel while `running` was still true. -/
  | fuel
  deriving DecidableEq, Repr

/-- The struct `CPUState`: `uint32_t registers[32]` and `uint32_t pc`. -/
structure CPUState where
  registers : List Nat
  pc : Nat
  deriving DecidableEq, Repr

/-- The globals of the program (`memory`, `cpu`) and the trace of the run. -/
structure Machine where
  memory : List Nat
  cpu : CPUState
  trace : List Event
  deriving DecidableEq, Repr

/-- Append one event to the trace. -/
def Machine.emit (m : Machine) (e : Event) : Machine :=
  { m with trace := m.trace ++ [e] }

/-- The rvalue `memory[index]`: a fault outside the buffer. -/
def Machine.load (m : Machine) (index : Nat) : Except Fault (Nat × Machine) :=
  match m.memory[index]? with
  | some b => .ok (b, m.emit (.load index))
  | none => .error (.outOfBounds index)

/-- The assignment `memory[index] = value`, the value converted to a byte:
a fault outside the buffer. -/
def Machine.store (m : Machine) (index : Nat) (value : Nat) : Except Fault Machine :=
  if index < m.memory.length then
    .ok { m with memory := m.memory.set index (value % 256),
                 trace := m.trace ++ [.store index] }
  else .error (.outOfBounds index)

/-- Source `write_byte` (lines 4-10). -/
def write_byte (MEMORY_SIZE : Nat) (m : Machine) (address : Nat) (value : Nat) :
    Except Fault Machine :=
  if address ≥ MEMORY_SIZE then
    .ok (m.emit (.errWriteBounds address))
  else
    m.store address value

/-- Source `read_word` (lines 13-19). The sum `address + 3` of the bounds
check and the three index sums are `uint32_t` sums, hence taken modulo `2^32`.
The bytes are combined with shifts and bitwise or, and the result is converted
to the `uint32_t` return type. -/
def read_word (MEMORY_SIZE : Nat) (m : Machine) (address : Nat) :
    Except Fault (Nat × Machine) :=
  if (address + 3) % 2 ^ 32 ≥ MEMORY_SIZE then
    .ok (0, m.emit (.errReadBounds address))
  else do
    let (b0, m) ← m.load address
    let (b1, m) ← m.load ((address + 1) % 2 ^ 32)
    let (b2, m) ← m.load ((address + 2) % 2 ^ 32)
    let (b3, m) ← m.load ((address + 3) % 2 ^ 32)
    .ok (((b0 <<< 24) ||| (b1 <<< 16) ||| (b2 <<< 8) ||| b3) % 2 ^ 32, m)

/-- Source `write_word` (lines 22-31). -/
def write_word (MEMORY_SIZE : Nat) (m : Machine) (address : Nat) (value : Nat) :
    Except Fault Machine :=
  if (address + 3) % 2 ^ 32 ≥ MEMORY_SIZE then
    .ok (m.emit (.errWriteBounds address))
  else do
    let m ← m.store address ((value >>> 24) &&& 0xFF)
    let m ← m.store ((address + 1) % 2 ^ 32) ((value >>> 16) &&& 0xFF)
    let m ← m.store ((address + 2) % 2 ^ 32) ((value >>> 8) &&& 0xFF)
    m.store ((address + 3) % 2 ^ 32) (value &&& 0xFF)

/-- The file behind `fopen(filename, "rb")`: its bytes, and how many bytes
`fread` is able to deliver before an input error (at least `contents.length`
when the file is read completely). -/
structure RomFile where
  contents : List Nat
  delivered : Nat
  deriving DecidableEq, Repr

/-- Source `load_rom` (lines 44-72). The argument is `none` when `fopen`
fails; `rom_size` is the length found by `fseek`/`ftell`. `fread` overwrites
the first `bytes_read` bytes of the buffer, and is a fault if that many bytes
do not fit in it. -/
def load_rom (MEMORY_SIZE : Nat) (m : Machine) (rom : Option RomFile) :
    Except Fault (Bool × Machine) :=
  match rom with
  | none => .ok (false, m.emit .errOpen)
  | some rom =>
    let rom_size := rom.contents.length
    if rom_size > MEMORY_SIZE then
      .ok (false, m.emit (.errRomSize rom_size MEMORY_SIZE))
    else
      let bytes_read := min rom_size rom.delivered
      if bytes_read > m.memory.length then
        .error (.outOfBounds m.memory.length)
      else
        let m := { m with
          memory := rom.contents.take bytes_read ++ m.memory.drop bytes_read,
          trace := m.trace ++ (List.range bytes_read).map Event.store }
        if bytes_read ≠ rom_size then
          .ok (false, m.emit .errShortRead)
        else
          .ok (true, m.emit (.outRomLoaded rom_size))

/-- Source `init_cpu` (lines 85-91). -/
def init_cpu (m : Machine) : Bool × Machine :=
  let cpu : CPUState := { registers := List.replicate 32 0, pc := 0 }
  let cpu := { cpu with pc := 0x80000000 }
  let cpu := { cpu with registers := cpu.registers.set 29 0x807FFFE0 }
  (true, { m with cpu := cpu })

/-- Source `cpu_step` (lines 94-108). -/
def cpu_step (MEMORY_SIZE : Nat) (m : Machine) : Except Fault (Bool × Machine) := do
  let (instr, m) ← read_word MEMORY_SIZE m m.cpu.pc
  let m := m.emit (.outFetch m.cpu.pc instr)
  let m := { m with cpu := { m.cpu with pc := (m.cpu.pc + 4) % 2 ^ 32 } }
  .ok (false, m)

/-- Modelled from the spec: the declaration of `memory` and its allocation in
`init_memory` are in the part of the source that is not available. The spec
gives the address space as an owned mutable byte buffer of the fixed size, so
a well-formed machine has `MEMORY_SIZE` entries, each a byte. -/
def Machine.WF (MEMORY_SIZE : Nat) (m : Machine) : Prop :=
  m.memory.length = MEMORY_SIZE ∧ ∀ b ∈ m.memory, b < 256

instance (MEMORY_SIZE : Nat) (m : Machine) : Decidable (m.WF MEMORY_SIZE) := by
  unfold Machine.WF
  infer_instance

/-- A 16-byte machine, all zero. -/
def machine16 : Machine :=
  { memory := List.replicate 16 0, cpu := { registers := List.replicate 32 0, pc := 0 },
    trace := [] }

/-- The 16-byte machine after loading the 8-byte image
`3C 08 00 01 00 00 00 00` at offset 0. -/
def machineRom : Machine :=
  { machine16 with memory := [0x3C, 0x08, 0x00, 0x01, 0, 0, 0, 0, 0, 0, 0, 0, 0, 0, 0, 0] }

/-- The machine left by a `write_word` whose four stores are performed. -/
def wordStored (m : Machine) (a v : Nat) : Machine :=
  { m with
    memory := (((m.memory.set a (v / 2 ^ 24 % 256)).set (a + 1) (v / 2 ^ 16 % 256)).set
      (a + 2) (v / 2 ^ 8 % 256)).set (a + 3) (v % 256),
    trace := m.trace ++ [.store a, .store (a + 1), .store (a + 2), .store (a + 3)] }

/-! ## Arithmetic of the big-endian encoding -/

theorem be_compose (b0 b1 b2 b3 : Nat) (h1 : b1 < 256) (h2 : b2 < 256)
    (h3 : b3 < 256) :
    (b0 <<< 24) ||| (b1 <<< 16) ||| (b2 <<< 8) ||| b3
      = b0 * 2 ^ 24 + b1 * 2 ^ 16 + b2 * 2 ^ 8 + b3 := by
  have e1 : b0 <<< 24 ||| b1 <<< 16 = 2 ^ 16 * (2 ^ 8 * b0 + b1) := by
    have h : b1 <<< 16 < 2 ^ 24 := by rw [Nat.shiftLeft_eq]; omega
    rw [Nat.shiftLeft_eq b0, Nat.mul_comm b0, ← Nat.mul_add_lt_is_or h, Nat.shiftLeft_eq]
    omega
  have e2 : 2 ^ 16 * (2 ^ 8 * b0 + b1) ||| b2 <<< 8
      = 2 ^ 8 * (2 ^ 8 * (2 ^ 8 * b0 + b1) + b2) := by
    have h : b2 <<< 8 < 2 ^ 16 := by rw [Nat.shiftLeft_eq]; omega
    rw [← Nat.mul_add_lt_is_or h, Nat.shiftLeft_eq]
    omega
  rw [e1, e2, ← Nat.mul_add_lt_is_or (by omega : b3 < 2 ^ 8)]
  omega

theorem byte_of_shift (v k : Nat) : ((v >>> k) &&& 0xFF) % 256 = v / 2 ^ k % 256 := by
  have h := Nat.and_pow_two_sub_one_eq_mod (v >>> k) 8
  norm_num at h
  rw [h, Nat.shiftRight_eq_div_pow]
  omega

theorem byte_of_low (v : Nat) : (v &&& 0xFF) % 256 = v % 256 := by
  have h := Nat.and_pow_two_sub_one_eq_mod v 8
  norm_num at h
  rw [h]
  omega

/-! ## The word accessors away from the 32-bit wrap -/

theorem write_word_in_range (MEMORY_SIZE : Nat) (m : Machine) (a v : Nat)
    (hlen : m.memory.length = MEMORY_SIZE) (hMS : MEMORY_SIZE ≤ 2 ^ 32)
    (ha : a + 3 < MEMORY_SIZE) :
    write_word MEMORY_SIZE m a v = .ok (wordStored m a v) := by
  have w1 : (a + 1) % 2 ^ 32 = a + 1 := Nat.mod_eq_of_lt (by omega)
  have w2 : (a + 2) % 2 ^ 32 = a + 2 := Nat.mod_eq_of_lt (by omega)
  have w3 : (a + 3) % 2 ^ 32 = a + 3 := Nat.mod_eq_of_lt (by omega)
  have g : ¬ (a + 3 ≥ MEMORY_SIZE) := by omega
  have l0 : a < m.memory.length := by omega
  have l1 : a + 1 < m.memory.length := by omega
  have l2 : a + 2 < m.memory.length := by omega
  have l3 : a + 3 < m.memory.length := by omega
  unfold write_word
  rw [w1, w2, w3, if_neg g]
  simp [Machine.store, bind, Except.bind, l0, l1, l2, l3, wordStored, byte_of_shift,
    byte_of_low, Nat.shiftRight_eq_div_pow]

theorem read_word_in_range_eq (MEMORY_SIZE : Nat) (m : Machine) (a b0 b1 b2 b3 : Nat)
    (hw : a + 3 < 2 ^ 32) (ha : a + 3 < MEMORY_SIZE)
    (h0 : m.memory[a]? = some b0) (h1 : m.memory[a + 1]? = some b1)
    (h2 : m.memory[a + 2]? = some b2) (h3 : m.memory[a + 3]? = some b3) :
    read_word MEMORY_SIZE m a =
      .ok (((b0 <<< 24) ||| (b1 <<< 16) ||| (b2 <<< 8) ||| b3) % 2 ^ 32,
        { m with trace := m.trace ++ [.load a, .load (a + 1), .load (a + 2), .load (a + 3)] }) := by
  have w1 : (a + 1) % 2 ^ 32 = a + 1 := Nat.mod_eq_of_lt (by omega)
  have w2 : (a + 2) % 2 ^ 32 = a + 2 := Nat.mod_eq_of_lt (by omega)
  have w3 : (a + 3) % 2 ^ 32 = a + 3 := Nat.mod_eq_of_lt (by omega)
  have g : ¬ (a + 3 ≥ MEMORY_SIZE) := by omega
  unfold read_word
  rw [w1, w2, w3, if_neg g]
  simp [Machine.load, Machine.emit, bind, Except.bind, h0, h1, h2, h3]

theorem read_word_out_of_range (MEMORY_SIZE : Nat) (m : Machine) (a : Nat)
    (hw : a + 3 < 2 ^ 32) (ha : a + 3 ≥ MEMORY_SIZE) :
    read_word MEMORY_SIZE m a = .ok (0, m.emit (.errReadBounds a)) := by
  unfold read_word
  rw [Nat.mod_eq_of_lt hw, if_pos ha]

theorem write_word_out_of_range (MEMORY_SIZE : Nat) (m : Machine) (a v : Nat)
    (hw : a + 3 < 2 ^ 32) (ha : a + 3 ≥ MEMORY_SIZE) :
    write_word MEMORY_SIZE m a v = .ok (m.emit (.errWriteBounds a)) := by
  unfold write_word
  rw [Nat.mod_eq_of_lt hw, if_pos ha]

/-- Scenario of the specification: in a 16-byte buffer `write_word(12, 0x01020304)`
stores `01 02 03 04` at 12..15 and a following `write_word(13, 0xFF)` is refused
and leaves the buffer as it is. -/
theorem write_word_scenario :
    ∃ m1 m2, write_word 16 machine16 12 0x01020304 = .ok m1 ∧
      write_word 16 m1 13 0xFF = .ok m2 ∧
      m1.memory = [0, 0, 0, 0, 0, 0, 0, 0, 0, 0, 0, 0, 1, 2, 3, 4] ∧
      m2.memory = m1.memory ∧
      m2.trace = m1.trace ++ [.errWriteBounds 13] :=
  ⟨_, _, rfl, rfl, rfl, rfl, rfl⟩

/-- A program counter that is a multiple of 4, as every one the program
produces is (`init_cpu` sets `0x80000000`, `cpu_step` adds 4), is at most
`0xFFFFFFFC`, so the `uint32_t` sum `pc + 3` of the fetch does not wrap. -/
theorem aligned_pc_no_wrap (pc : Nat) (h32 : pc < 2 ^ 32) (h4 : pc % 4 = 0) :
    pc + 3 < 2 ^ 32 := by
  omega

/-- The sum `cpu.pc += 4` keeps the program counter a multiple of 4. -/
theorem aligned_pc_advance (pc : Nat) (h4 : pc % 4 = 0) :
    (pc + 4) % 2 ^ 32 < 2 ^ 32 ∧ (pc + 4) % 2 ^ 32 % 4 = 0 := by
  omega

/-- For every buffer of at most `2^32 - 3` bytes (and at least one),
`read_word(0xFFFFFFFD)` passes the wrapped bounds check and indexes the buffer
outside it. -/
theorem read_word_wrap_fault_any_size (MEMORY_SIZE : Nat) (m : Machine)
    (hlen : m.memory.length = MEMORY_SIZE) (h0 : 0 < MEMORY_SIZE)
    (hMS : MEMORY_SIZE ≤ 0xFFFFFFFD) :
    read_word MEMORY_SIZE m 0xFFFFFFFD = .error (.outOfBounds 0xFFFFFFFD) := by
  have g : ¬ ((0xFFFFFFFD + 3) % 2 ^ 32 ≥ MEMORY_SIZE) := by
    have e : (0xFFFFFFFD + 3) % 2 ^ 32 = 0 := by norm_num
    rw [e]
    omega
  have hnone : m.memory[0xFFFFFFFD]? = none := List.getElem?_eq_none (by omega)
  unfold read_word
  rw [if_neg g]
  simp only [Machine.load, hnone, bind, Except.bind]

/-- For every buffer of at most `2^32 - 3` bytes (and at least one),
`write_word(0xFFFFFFFD, v)` passes the wrapped bounds check and its first
store indexes the buffer outside it. -/
theorem write_word_wrap_fault_any_size (MEMORY_SIZE : Nat) (m : Machine) (v : Nat)
    (hlen : m.memory.length = MEMORY_SIZE) (h0 : 0 < MEMORY_SIZE)
    (hMS : MEMORY_SIZE ≤ 0xFFFFFFFD) :
    write_word MEMORY_SIZE m 0xFFFFFFFD v = .error (.outOfBounds 0xFFFFFFFD) := by
  have g : ¬ ((0xFFFFFFFD + 3) % 2 ^ 32 ≥ MEMORY_SIZE) := by
    have e : (0xFFFFFFFD + 3) % 2 ^ 32 = 0 := by norm_num
    rw [e]
    omega
  have hl : ¬ (0xFFFFFFFD < m.memory.length) := by omega
  unfold write_word
  rw [if_neg g]
  simp only [Machine.store, if_neg hl, bind, Except.bind]

/-- Scenario of the specification: loading the 8-byte image
`3C 08 00 01 00 00 00 00` into the zeroed 16-byte space succeeds and leaves the
memory of `machineRom`. -/
theorem load_rom_scenario :
    ∃ m1, load_rom 16 machine16
        (some ⟨[0x3C, 0x08, 0x00, 0x01, 0x00, 0x00, 0x00, 0x00], 8⟩) = .ok (true, m1) ∧
      m1.memory = machineRom.memory :=
  ⟨_, rfl, rfl⟩

/-! ## Claims -/

/-- C1 (defect of the code): at the 32-bit address `0xFFFFFFFD` of a 16-byte
buffer the span is out of range as an integer sum (`a + 3 ≥ 16`), yet
`read_word` does not return 0: the `uint32_t` sum `address + 3` wraps to 0,
the bounds check passes, and the buffer is indexed at `0xFFFFFFFD`, outside
it. -/
theorem read_word_wrap_fault :
    0xFFFFFFFD < 2 ^ 32 ∧ 0xFFFFFFFD + 3 ≥ 16 ∧ machine16.memory.length = 16 ∧
      read_word 16 machine16 0xFFFFFFFD = .error (.outOfBounds 0xFFFFFFFD) := by
  decide

/-- C2 (defect of the code): at the 32-bit address `0xFFFFFFFD` of a 16-byte
buffer the span is not inside the buffer, yet `write_word` is not a no-op: the
`uint32_t` sum `address + 3` wraps to 0, the bounds check passes, and the first
store indexes the buffer at `0xFFFFFFFD`, outside it. -/
theorem write_word_wrap_fault :
    0xFFFFFFFD < 2 ^ 32 ∧ 0xFFFFFFFD + 3 ≥ 16 ∧ machine16.memory.length = 16 ∧
      write_word 16 machine16 0xFFFFFFFD 0x01020304 = .error (.outOfBounds 0xFFFFFFFD) := by
  decide

/-- C3: for an address `a` with `a + 3 < MEMORY_SIZE` and a 32-bit value `v`,
`write_word(a, v)` succeeds and the following `read_word(a)` returns exactly
`v`, whatever the memory held before. -/
theorem write_word_read_word (MEMORY_SIZE : Nat) (m : Machine) (a v : Nat)
    (hlen : m.memory.length = MEMORY_SIZE) (hMS : MEMORY_SIZE ≤ 2 ^ 32)
    (ha : a + 3 < MEMORY_SIZE) (hv : v < 2 ^ 32) :
    ∃ m1 m2, write_word MEMORY_SIZE m a v = .ok m1 ∧
      read_word MEMORY_SIZE m1 a = .ok (v, m2) ∧ m2.memory = m1.memory := by
  refine ⟨wordStored m a v,
    { wordStored m a v with
      trace := (wordStored m a v).trace ++
        [.load a, .load (a + 1), .load (a + 2), .load (a + 3)] },
    write_word_in_range MEMORY_SIZE m a v hlen hMS ha, ?_, rfl⟩
  have l0 : a < m.memory.length := by omega
  have l1 : a + 1 < m.memory.length := by omega
  have l2 : a + 2 < m.memory.length := by omega
  have l3 : a + 3 < m.memory.length := by omega
  rw [read_word_in_range_eq MEMORY_SIZE (wordStored m a v) a
    (v / 2 ^ 24 % 256) (v / 2 ^ 16 % 256) (v / 2 ^ 8 % 256) (v % 256) (by omega) ha
    (by simp [wordStored, List.getElem?_set, l0])
    (by simp [wordStored, List.getElem?_set, l1])
    (by simp [wordStored, List.getElem?_set, l2])
    (by simp [wordStored, List.getElem?_set, l3])]
  rw [be_compose _ _ _ _ (Nat.mod_lt _ (by decide)) (Nat.mod_lt _ (by decide))
    (Nat.mod_lt _ (by decide))]
  have e : (v / 2 ^ 24 % 256) * 2 ^ 24 + (v / 2 ^ 16 % 256) * 2 ^ 16
      + (v / 2 ^ 8 % 256) * 2 ^ 8 + v % 256 = v := by omega
  rw [e, Nat.mod_eq_of_lt hv]

theorem write_word_read_word_witness :
    ∃ m1 m2, write_word 16 machine16 12 0x01020304 = .ok m1 ∧
      read_word 16 m1 12 = .ok (0x01020304, m2) ∧ m2.memory = m1.memory :=
  write_word_read_word 16 machine16 12 0x01020304 (by decide) (by decide) (by decide)
    (by decide)

/-- C4: for an address `a` with `a + 3 < MEMORY_SIZE`, `write_word(a, v)`
succeeds; afterwards the bytes at `a`, `a+1`, `a+2`, `a+3` are bits 31..24,
23..16, 15..8 and 7..0 of `v` (most-significant byte at the lowest address),
and the byte at every other address is the one held before. -/
theorem write_word_big_endian (MEMORY_SIZE : Nat) (m : Machine) (a v : Nat)
    (hlen : m.memory.length = MEMORY_SIZE) (hMS : MEMORY_SIZE ≤ 2 ^ 32)
    (ha : a + 3 < MEMORY_SIZE) :
    ∃ m1, write_word MEMORY_SIZE m a v = .ok m1 ∧
      m1.memory[a]? = some (v / 2 ^ 24 % 256) ∧
      m1.memory[a + 1]? = some (v / 2 ^ 16 % 256) ∧
      m1.memory[a + 2]? = some (v / 2 ^ 8 % 256) ∧
      m1.memory[a + 3]? = some (v % 256) ∧
      m1.memory.length = m.memory.length ∧
      ∀ i, i ≠ a → i ≠ a + 1 → i ≠ a + 2 → i ≠ a + 3 → m1.memory[i]? = m.memory[i]? := by
  have l0 : a < m.memory.length := by omega
  have l1 : a + 1 < m.memory.length := by omega
  have l2 : a + 2 < m.memory.length := by omega
  have l3 : a + 3 < m.memory.length := by omega
  refine ⟨wordStored m a v, write_word_in_range MEMORY_SIZE m a v hlen hMS ha,
    ?_, ?_, ?_, ?_, ?_, ?_⟩
  · simp [wordStored, List.getElem?_set, l0]
  · simp [wordStored, List.getElem?_set, l1]
  · simp [wordStored, List.getElem?_set, l2]
  · simp [wordStored, List.getElem?_set, l3]
  · simp [wordStored]
  · intro i i0 i1 i2 i3
    simp [wordStored, List.getElem?_set, Ne.symm i0, Ne.symm i1, Ne.symm i2, Ne.symm i3]

theorem write_word_big_endian_witness :
    ∃ m1, write_word 16 machine16 12 0x01020304 = .ok m1 ∧
      m1.memory[12]? = some (0x01020304 / 2 ^ 24 % 256) ∧
      m1.memory[12 + 1]? = some (0x01020304 / 2 ^ 16 % 256) ∧
      m1.memory[12 + 2]? = some (0x01020304 / 2 ^ 8 % 256) ∧
      m1.memory[12 + 3]? = some (0x01020304 % 256) ∧
      m1.memory.length = machine16.memory.length ∧
      ∀ i, i ≠ 12 → i ≠ 12 + 1 → i ≠ 12 + 2 → i ≠ 12 + 3 →
        m1.memory[i]? = machine16.memory[i]? :=
  write_word_big_endian 16 machine16 12 0x01020304 (by decide) (by decide) (by decide)

/-- C5: for an address `a` with `a + 3 < MEMORY_SIZE`, `read_word(a)` returns
`b0 * 2^24 + b1 * 2^16 + b2 * 2^8 + b3`, where `b0 .. b3` are the bytes at
`a .. a+3`; the value is a 32-bit unsigned value and the memory is left as it
was (only the four loads are added to the trace). -/
theorem read_word_big_endian (MEMORY_SIZE : Nat) (m : Machine) (a : Nat)
    (hwf : m.WF MEMORY_SIZE) (hMS : MEMORY_SIZE ≤ 2 ^ 32) (ha : a + 3 < MEMORY_SIZE) :
    ∃ b0 b1 b2 b3, m.memory[a]? = some b0 ∧ m.memory[a + 1]? = some b1 ∧
      m.memory[a + 2]? = some b2 ∧ m.memory[a + 3]? = some b3 ∧
      read_word MEMORY_SIZE m a =
        .ok (b0 * 2 ^ 24 + b1 * 2 ^ 16 + b2 * 2 ^ 8 + b3,
          { m with trace := m.trace ++
              [.load a, .load (a + 1), .load (a + 2), .load (a + 3)] }) ∧
      b0 * 2 ^ 24 + b1 * 2 ^ 16 + b2 * 2 ^ 8 + b3 < 2 ^ 32 := by
  obtain ⟨hlen, hbytes⟩ := hwf
  have l0 : a < m.memory.length := by omega
  have l1 : a + 1 < m.memory.length := by omega
  have l2 : a + 2 < m.memory.length := by omega
  have l3 : a + 3 < m.memory.length := by omega
  have c0 : m.memory[a] < 256 := hbytes _ (List.getElem_mem l0)
  have c1 : m.memory[a + 1] < 256 := hbytes _ (List.getElem_mem l1)
  have c2 : m.memory[a + 2] < 256 := hbytes _ (List.getElem_mem l2)
  have c3 : m.memory[a + 3] < 256 := hbytes _ (List.getElem_mem l3)
  have hlt : m.memory[a] * 2 ^ 24 + m.memory[a + 1] * 2 ^ 16 + m.memory[a + 2] * 2 ^ 8
      + m.memory[a + 3] < 2 ^ 32 := by omega
  refine ⟨m.memory[a], m.memory[a + 1], m.memory[a + 2], m.memory[a + 3],
    List.getElem?_eq_getElem l0, List.getElem?_eq_getElem l1, List.getElem?_eq_getElem l2,
    List.getElem?_eq_getElem l3, ?_, hlt⟩
  rw [read_word_in_range_eq MEMORY_SIZE m a _ _ _ _ (by omega) ha (List.getElem?_eq_getElem l0)
    (List.getElem?_eq_getElem l1) (List.getElem?_eq_getElem l2) (List.getElem?_eq_getElem l3),
    be_compose _ _ _ _ c1 c2 c3, Nat.mod_eq_of_lt hlt]

theorem read_word_big_endian_witness :
    read_word 16 machineRom 0 =
        .ok (0x3C080001, { machineRom with trace := [.load 0, .load 1, .load 2, .load 3] }) ∧
      read_word 16 machineRom 4 =
        .ok (0, { machineRom with trace := [.load 4, .load 5, .load 6, .load 7] }) := by
  constructor
  · obtain ⟨b0, b1, b2, b3, h0, h1, h2, h3, hr, _⟩ :=
      read_word_big_endian 16 machineRom 0 (by decide) (by decide) (by decide)
    simp only [machineRom] at h0 h1 h2 h3
    cases h0; cases h1; cases h2; cases h3
    exact hr
  · obtain ⟨b0, b1, b2, b3, h0, h1, h2, h3, hr, _⟩ :=
      read_word_big_endian 16 machineRom 4 (by decide) (by decide) (by decide)
    simp only [machineRom] at h0 h1 h2 h3
    cases h0; cases h1; cases h2; cases h3
    exact hr

/-- C6: `write_byte(a, v)` with `a < MEMORY_SIZE` yields the memory with the
byte at `a` replaced by `v` (a byte-level read at `a` gives `v`, every other
byte is as before); with `a ≥ MEMORY_SIZE` it yields the memory unchanged and
records the diagnostic. -/
theorem write_byte_spec (MEMORY_SIZE : Nat) (m : Machine) (a v : Nat)
    (hlen : m.memory.length = MEMORY_SIZE) (hv : v < 256) :
    (a < MEMORY_SIZE → ∃ m1, write_byte MEMORY_SIZE m a v = .ok m1 ∧
        m1.memory = m.memory.set a v ∧ m1.memory[a]? = some v ∧
        m1.memory.length = m.memory.length ∧
        ∀ i, i ≠ a → m1.memory[i]? = m.memory[i]?) ∧
      (MEMORY_SIZE ≤ a → ∃ m1, write_byte MEMORY_SIZE m a v = .ok m1 ∧
        m1.memory = m.memory ∧ m1.trace = m.trace ++ [.errWriteBounds a]) := by
  constructor
  · intro ha
    have l0 : a < m.memory.length := by omega
    have g : ¬ (a ≥ MEMORY_SIZE) := by omega
    refine ⟨{ m with memory := m.memory.set a v, trace := m.trace ++ [.store a] },
      ?_, rfl, ?_, ?_, ?_⟩
    · simp [write_byte, g, Machine.store, l0, Nat.mod_eq_of_lt hv]
    · simp [List.getElem?_set, l0]
    · simp
    · intro i hi
      simp [List.getElem?_set, Ne.symm hi]
  · intro ha
    exact ⟨m.emit (.errWriteBounds a), by simp [write_byte, ha], rfl, rfl⟩

theorem write_byte_spec_witness :
    (∃ m1, write_byte 16 machineRom 5 0xAB = .ok m1 ∧
        m1.memory = machineRom.memory.set 5 0xAB ∧ m1.memory[5]? = some 0xAB ∧
        m1.memory.length = machineRom.memory.length ∧
        ∀ i, i ≠ 5 → m1.memory[i]? = machineRom.memory[i]?) ∧
      (∃ m1, write_byte 16 machineRom 16 0xAB = .ok m1 ∧
        m1.memory = machineRom.memory ∧
        m1.trace = machineRom.trace ++ [.errWriteBounds 16]) :=
  ⟨(write_byte_spec 16 machineRom 5 0xAB (by decide) (by decide)).1 (by decide),
    (write_byte_spec 16 machineRom 16 0xAB (by decide) (by decide)).2 (by decide)⟩

/-- C7: with the opened file a byte sequence of length `L` that `fread` reads
completely: when `L ≤ MEMORY_SIZE`, `load_rom` succeeds, reports `L`, and the
memory has the image in bytes `[0, L)` and its former bytes at every offset
`≥ L`; when `L > MEMORY_SIZE`, `load_rom` fails and the memory is unchanged. -/
theorem load_rom_spec (MEMORY_SIZE : Nat) (m : Machine) (rom : RomFile)
    (hlen : m.memory.length = MEMORY_SIZE) (hread : rom.contents.length ≤ rom.delivered) :
    (rom.contents.length ≤ MEMORY_SIZE →
        ∃ m1, load_rom MEMORY_SIZE m (some rom) = .ok (true, m1) ∧
          m1.trace.getLast? = some (.outRomLoaded rom.contents.length) ∧
          m1.memory.length = m.memory.length ∧
          (∀ i, i < rom.contents.length → m1.memory[i]? = rom.contents[i]?) ∧
          (∀ i, rom.contents.length ≤ i → m1.memory[i]? = m.memory[i]?)) ∧
      (MEMORY_SIZE < rom.contents.length →
        ∃ m1, load_rom MEMORY_SIZE m (some rom) = .ok (false, m1) ∧
          m1.memory = m.memory ∧
          m1.trace = m.trace ++ [.errRomSize rom.contents.length MEMORY_SIZE]) := by
  constructor
  · intro hL
    have g1 : ¬ (rom.contents.length > MEMORY_SIZE) := by omega
    have g2 : ¬ (min rom.contents.length rom.delivered > m.memory.length) := by omega
    have hmin : min rom.contents.length rom.delivered = rom.contents.length :=
      Nat.min_eq_left hread
    refine ⟨{ m with
        memory := rom.contents ++ m.memory.drop rom.contents.length,
        trace := m.trace ++ (List.range rom.contents.length).map Event.store ++
          [.outRomLoaded rom.contents.length] }, ?_, ?_, ?_, ?_, ?_⟩
    · simp only [load_rom, if_neg g1, if_neg g2]
      simp [hmin, Machine.emit]
    · simp
    · simp only [List.length_append, List.length_drop]
      omega
    · intro i hi
      simp [List.getElem?_append_left hi]
    · intro i hi
      rw [List.getElem?_append_right hi, List.getElem?_drop]
      congr 1
      omega
  · intro hL
    exact ⟨m.emit (.errRomSize rom.contents.length MEMORY_SIZE),
      by simp [load_rom, hL], rfl, rfl⟩

theorem load_rom_spec_witness :
    (∃ m1, load_rom 16 machine16
          (some ⟨[0x3C, 0x08, 0x00, 0x01, 0x00, 0x00, 0x00, 0x00], 8⟩) = .ok (true, m1) ∧
        m1.trace.getLast? = some (.outRomLoaded 8) ∧
        m1.memory.length = machine16.memory.length ∧
        (∀ i, i < 8 → m1.memory[i]? =
          [0x3C, 0x08, 0x00, 0x01, 0x00, 0x00, 0x00, 0x00][i]?) ∧
        (∀ i, 8 ≤ i → m1.memory[i]? = machine16.memory[i]?)) ∧
      (∃ m1, load_rom 16 machineRom (some ⟨List.replicate 17 0xFF, 17⟩) = .ok (false, m1) ∧
        m1.memory = machineRom.memory ∧
        m1.trace = machineRom.trace ++ [.errRomSize 17 16]) :=
  ⟨(load_rom_spec 16 machine16 ⟨[0x3C, 0x08, 0x00, 0x01, 0x00, 0x00, 0x00, 0x00], 8⟩
      (by decide) (by decide)).1 (by decide),
    (load_rom_spec 16 machineRom ⟨List.replicate 17 0xFF, 17⟩
      (by decide) (by decide)).2 (by decide)⟩

/-- C8: from any prior state `init_cpu` returns success and leaves the program
counter `0x80000000`, register 29 equal to `0x807FFFE0` and every other
register of index 0..31 equal to 0; the processor state it leaves is the same
for every prior state, and the memory is not touched. -/
theorem init_cpu_spec (m : Machine) :
    (init_cpu m).1 = true ∧
      (init_cpu m).2.cpu.pc = 0x80000000 ∧
      (init_cpu m).2.cpu.registers.length = 32 ∧
      (init_cpu m).2.cpu.registers[29]? = some 0x807FFFE0 ∧
      (∀ i, i < 32 → i ≠ 29 → (init_cpu m).2.cpu.registers[i]? = some 0) ∧
      (∀ m0 : Machine, (init_cpu m0).2.cpu = (init_cpu m).2.cpu) ∧
      (init_cpu m).2.memory = m.memory ∧ (init_cpu m).2.trace = m.trace := by
  refine ⟨rfl, rfl, rfl, rfl, ?_, fun _ => rfl, rfl, rfl⟩
  intro i hi hne
  simp only [init_cpu]
  rw [List.getElem?_set_ne (Ne.symm hne), List.getElem?_replicate, if_pos hi]

theorem init_cpu_spec_witness :
    (init_cpu machineRom).1 = true ∧
      (init_cpu machineRom).2.cpu.pc = 0x80000000 ∧
      (init_cpu machineRom).2.cpu.registers.length = 32 ∧
      (init_cpu machineRom).2.cpu.registers[29]? = some 0x807FFFE0 ∧
      (∀ i, i < 32 → i ≠ 29 → (init_cpu machineRom).2.cpu.registers[i]? = some 0) ∧
      (∀ m0 : Machine, (init_cpu m0).2.cpu = (init_cpu machineRom).2.cpu) ∧
      (init_cpu machineRom).2.memory = machineRom.memory ∧
      (init_cpu machineRom).2.trace = machineRom.trace :=
  init_cpu_spec machineRom

/-- C10: for every `MEMORY_SIZE ≤ 2^31` and every memory content, the program
counter set by `init_cpu` is `0x80000000`, `read_word` there is a bounds
failure returning 0 without any buffer access, and the first `cpu_step` after
`init_cpu` fetches the instruction word 0. -/
theorem entry_fetch_is_zero (MEMORY_SIZE : Nat) (m : Machine)
    (hMS : MEMORY_SIZE ≤ 2 ^ 31) :
    (init_cpu m).2.cpu.pc = 0x80000000 ∧
      read_word MEMORY_SIZE (init_cpu m).2 (init_cpu m).2.cpu.pc
        = .ok (0, (init_cpu m).2.emit (.errReadBounds 0x80000000)) ∧
      cpu_step MEMORY_SIZE (init_cpu m).2
        = .ok (false, { (init_cpu m).2 with
            cpu := { (init_cpu m).2.cpu with pc := 0x80000004 },
            trace := m.trace ++ [.errReadBounds 0x80000000, .outFetch 0x80000000 0] }) := by
  have hpc : (init_cpu m).2.cpu.pc = 0x80000000 := rfl
  have h1 : 0x80000000 + 3 < 2 ^ 32 := by norm_num
  have h2 : 0x80000000 + 3 ≥ MEMORY_SIZE := by omega
  have hr : read_word MEMORY_SIZE (init_cpu m).2 (init_cpu m).2.cpu.pc
      = .ok (0, (init_cpu m).2.emit (.errReadBounds 0x80000000)) :=
    read_word_out_of_range MEMORY_SIZE (init_cpu m).2 0x80000000 h1 h2
  refine ⟨hpc, hr, ?_⟩
  simp only [cpu_step, hr, bind, Except.bind]
  simp only [Machine.emit, init_cpu, List.append_assoc, List.cons_append, List.nil_append]
  rfl

theorem entry_fetch_is_zero_witness :
    (init_cpu machineRom).2.cpu.pc = 0x80000000 ∧
      read_word 16 (init_cpu machineRom).2 (init_cpu machineRom).2.cpu.pc
        = .ok (0, (init_cpu machineRom).2.emit (.errReadBounds 0x80000000)) ∧
      cpu_step 16 (init_cpu machineRom).2
        = .ok (false, { (init_cpu machineRom).2 with
            cpu := { (init_cpu machineRom).2.cpu with pc := 0x80000004 },
            trace := machineRom.trace ++
              [.errReadBounds 0x80000000, .outFetch 0x80000000 0] }) :=
  entry_fetch_is_zero 16 machineRom (by decide)

end EMUPJ
